import Mathlib

/-
  Verification of the AdOps-Agent campaign QA core:
  * the spreadsheet-to-campaign-element parser (src/lib/google-sheets.ts:
    detectKeyValueFormat, parseKeyValueFormat, parseColumnFormat,
    parseMediaPlanData, convertToCampaignElements), and
  * the QA-result reconciliation engine (processQAResults,
    determineOverallStatus, calculateSummary).

  Strings are modelled as lists of characters (type Str below); JavaScript
  runtime values that can flow through the untyped parts of the code are
  modelled explicitly (JSValue for sheet cell data, Json for parsed agent
  output).  Numeric values are modelled as exact decimals (Dec below):
  JavaScript computes with IEEE-754 doubles, but every claim checked here
  involves only small integers, on which the two coincide.
-/

namespace AdOps

abbrev Str := List Char

/-- Whitespace test matching JavaScript by trim and by the regex class
    backslash-s on the ASCII range (space, tab, LF, VT, FF, CR).  The
    JavaScript versions additionally accept Unicode space characters,
    which do not occur in any input considered here. -/
def isWs (c : Char) : Bool :=
  c == ' ' || c == '\t' || c == '\n' || c == '\r' || c == Char.ofNat 11 || c == Char.ofNat 12

/-- Model of String.prototype.trim. -/
def jsTrim (s : Str) : Str :=
  ((s.dropWhile isWs).reverse.dropWhile isWs).reverse

/-- Model of String.prototype.toLowerCase, character-wise (ASCII-faithful). -/
def jsToLower (s : Str) : Str := s.map Char.toLower

/-- Does the first list occur at the start of the second one? -/
def listStartsWith : Str → Str → Bool
  | [], _ => true
  | _ :: _, [] => false
  | c :: cs, d :: ds => c == d && listStartsWith cs ds

/-- Model of String.prototype.includes (substring occurrence). -/
def containsSub (hay needle : Str) : Bool :=
  match hay with
  | [] => needle.isEmpty
  | _ :: rest => listStartsWith needle hay || containsSub rest needle

/-- Model of String.prototype.indexOf: index of the first occurrence. -/
def idxOfSub (needle : Str) : Str → Option Nat
  | [] => if needle.isEmpty then some 0 else none
  | c :: rest =>
      if listStartsWith needle (c :: rest) then some 0
      else (idxOfSub needle rest).map (· + 1)

/-- Decimal digits of a natural number, as characters. -/
def natDigits (n : Nat) : Str := (toString n).data

/-- Numeric value of a list of decimal digit characters. -/
def digitsVal (ds : Str) : Nat :=
  ds.foldl (fun acc c => acc * 10 + (c.toNat - 48)) 0

def isDigit (c : Char) : Bool := '0' ≤ c && c ≤ '9'

/-! ## Exact decimal numbers

Numbers flowing through the code (parseFloat results, JSON numbers,
parseInt results, the 0.2 failure-rate threshold) are all decimal
literals; they are modelled exactly as mantissa times a power of ten.
JavaScript computes with IEEE-754 doubles instead; on the small integers
every claim involves, the two agree. -/

structure Dec where
  m : ℤ
  e : ℤ
deriving DecidableEq

/-- The decimal for an integer. -/
def Dec.ofInt (n : ℤ) : Dec := ⟨n, 0⟩

/-- Comparison of two exact decimals (value order, not representation). -/
def Dec.lt (a b : Dec) : Bool :=
  a.m * (10 : ℤ) ^ (a.e - min a.e b.e).toNat < b.m * (10 : ℤ) ^ (b.e - min a.e b.e).toNat

def Dec.le (a b : Dec) : Bool :=
  a.m * (10 : ℤ) ^ (a.e - min a.e b.e).toNat ≤ b.m * (10 : ℤ) ^ (b.e - min a.e b.e).toNat

/-! ## JavaScript runtime values produced by the sheet parser

The column parser stores numbers and string arrays into its row records,
the key-value parser stores raw strings; all of them are later pushed
through the JavaScript String() conversion.  JSValue models exactly the
values these code paths can produce. -/

inductive JSValue where
  | str (s : Str)
  | num (d : Dec)
  | arr (xs : List Str)
deriving DecidableEq

/-- JavaScript truthiness on JSValue: empty string and zero are falsy,
    arrays (being objects) are always truthy. -/
def jsTruthy : JSValue → Bool
  | .str s => !s.isEmpty
  | .num d => d.m != 0
  | .arr _ => true

/-- Model of the expression (v or-else d) for a possibly-undefined value:
    a missing or falsy value yields the default. -/
def jsOr (v : Option JSValue) (d : JSValue) : JSValue :=
  match v with
  | some x => if jsTruthy x then x else d
  | none => d

/-- Model of the JavaScript Number-to-string conversion on exact
    decimals.  Integral values render exactly as JavaScript renders every
    integer the code can meet; for non-integral values JavaScript prints
    the shortest round-tripping decimal of the nearest double,
    approximated here by the exact decimal expansion with trailing zeros
    stripped.  No claim depends on the non-integral case. -/
def jsNumToString (d : Dec) : Str :=
  if 0 ≤ d.e then (toString (d.m * (10 : ℤ) ^ d.e.toNat)).data
  else
    let k := (-d.e).toNat
    let p := (10 : ℤ) ^ k
    if d.m % p = 0 then (toString (d.m / p)).data
    else
      let sign : Str := if d.m < 0 then ['-'] else []
      let frac := natDigits (d.m.natAbs % p.toNat)
      let fracPadded := List.replicate (k - frac.length) '0' ++ frac
      sign ++ natDigits (d.m.natAbs / p.toNat) ++ ['.']
        ++ (fracPadded.reverse.dropWhile (· == '0')).reverse

/-- Model of the JavaScript String() conversion on the values above
    (an array converts by joining its elements with commas). -/
def jsToString : JSValue → Str
  | .str s => s
  | .num d => jsNumToString d
  | .arr xs => (xs.intersperse [',']).flatten

/-- Longest prefix of decimal digit characters, and the rest. -/
def takeDigits (s : Str) : Str × Str := (s.takeWhile isDigit, s.dropWhile isDigit)

/-- Model of JavaScript parseFloat on decimal notation: skip leading
    whitespace, optional sign, digits with optional fraction, optional
    exponent; none models NaN.  (JavaScript additionally accepts the
    literal Infinity, which no input here produces.) -/
def jsParseFloat (s : Str) : Option Dec :=
  let s1 := s.dropWhile isWs
  let signAndRest : ℤ × Str :=
    match s1 with
    | '+' :: r => (1, r)
    | '-' :: r => (-1, r)
    | _ => (1, s1)
  let sign := signAndRest.1
  let (ip, s2) := takeDigits signAndRest.2
  let (fp, s3) :=
    match s2 with
    | '.' :: r => takeDigits r
    | _ => ([], s2)
  if ip.isEmpty && fp.isEmpty then none
  else
    let mant : ℤ := sign * ((digitsVal ip : ℤ) * (10 : ℤ) ^ fp.length + (digitsVal fp : ℤ))
    let ex : ℤ :=
      match s3 with
      | 'e' :: r | 'E' :: r =>
          match r with
          | '+' :: r2 => (match takeDigits r2 with | ([], _) => 0 | (ds, _) => (digitsVal ds : ℤ))
          | '-' :: r2 => (match takeDigits r2 with | ([], _) => 0 | (ds, _) => -(digitsVal ds : ℤ))
          | r2 => (match takeDigits r2 with | ([], _) => 0 | (ds, _) => (digitsVal ds : ℤ))
      | _ => 0
    some ⟨mant, ex - fp.length⟩

/-! ## Data model (src/app/types/Campaign, as used at runtime)

The TypeScript interface declares category as required, but the live
extraction path (convertToCampaignElements) never sets it, so at runtime
it is absent; it is therefore modelled as optional. -/

structure CampaignElement where
  id : Str
  category : Option Str
  label : Str
  expectedValue : Str
  selected : Bool
  xpath : Option Str
deriving DecidableEq

/-! ## The spreadsheet parser (src/lib/google-sheets.ts) -/

/-- A grid of cells as handed to parseMediaPlanData. -/
abbrev Grid := List (List Str)

inductive FieldType where
  | string | number | date | array
deriving DecidableEq

structure Field where
  name : Str
  type : FieldType
  required : Bool
deriving DecidableEq

/-- A JavaScript object keyed by field name; assignments append, lookups
    take the last binding (last assignment wins, as in JavaScript). -/
abbrev RowMap := List (Str × JSValue)

def lookupLast (m : RowMap) (k : Str) : Option JSValue :=
  m.foldl (fun acc p => if p.1 = k then some p.2 else acc) none

def setKey (m : RowMap) (k : Str) (v : JSValue) : RowMap := m ++ [(k, v)]

structure ParsedData where
  fields : List Field
  data : List RowMap
  rowCount : Nat
deriving DecidableEq

/-- The per-row test of detectKeyValueFormat / parseKeyValueFormat:
    columns 0 and 1, lowercased and trimmed, are exactly key/value or
    respectively contain key/value. -/
def kvHeaderRow (row : List Str) : Bool :=
  row.length ≥ 2 &&
    (let c1 := jsTrim (jsToLower (row.getD 0 []))
     let c2 := jsTrim (jsToLower (row.getD 1 []))
     (c1 == "key".data && c2 == "value".data)
       || (containsSub c1 "key".data && containsSub c2 "value".data))

/-- detectKeyValueFormat: scan at most the first 5 rows for a key/value
    header row. -/
def detectKeyValueFormat (values : Grid) : Bool :=
  (values.take 5).any kvHeaderRow

/-- Index of the key/value header row among the first 5 rows, if any
    (the scan inside parseKeyValueFormat). -/
def findKvHeaderIdx (values : Grid) : Option Nat :=
  ((values.take 5).enum.find? (fun p => kvHeaderRow p.2)).map Prod.fst

inductive SheetError where
  | malformedInput          -- "Invalid sheet data - no headers or data rows found"
  | keyValueHeaderNotFound  -- "Could not find Key-Value header row"
deriving DecidableEq

/-- parseKeyValueFormat: rows after the header row with a non-empty key
    other than the literal word key become fields; every value is kept as
    a raw string; all pairs land in one single data row. -/
def parseKeyValueFormat (values : Grid) : Except SheetError ParsedData :=
  match findKvHeaderIdx values with
  | none => .error .keyValueHeaderNotFound
  | some h =>
      let dataRows := values.drop (h + 1)
      let pairs : List (Str × Str) := dataRows.filterMap (fun row =>
        if row.length ≥ 1 then
          let key := jsTrim (row.getD 0 [])
          let value := if row.length ≥ 2 then jsTrim (row.getD 1 []) else []
          if !key.isEmpty && jsToLower key ≠ "key".data then some (key, value) else none
        else none)
      .ok
        { fields := pairs.map (fun p => ⟨p.1, .string, true⟩)
          data := [pairs.foldl (fun m p => setKey m p.1 (.str p.2)) []]
          rowCount := 1 }

/-- The field-type detection of parseColumnFormat, verbatim from the
    source: budget/cost/price give number, date gives date,
    zip/target/audience give array, anything else string. -/
def detectFieldType (fieldName : Str) : FieldType :=
  if containsSub (jsToLower fieldName) "budget".data
      || containsSub (jsToLower fieldName) "cost".data
      || containsSub (jsToLower fieldName) "price".data then .number
  else if containsSub (jsToLower fieldName) "date".data then .date
  else if containsSub (jsToLower fieldName) "zip".data
      || containsSub (jsToLower fieldName) "target".data
      || containsSub (jsToLower fieldName) "audience".data then .array
  else .string

/-- Strip commas and dollar signs, the replace-comma-dollar step of the
    number coercion. -/
def stripCommaDollar (s : Str) : Str := s.filter (fun c => c ≠ ',' && c ≠ '$')

/-- The per-cell value coercion of parseColumnFormat: numbers strip
    commas and dollar signs and parse as float with 0 on failure (and on
    a parsed 0, which is falsy); arrays split on commas, trim and drop
    empties; dates and strings pass through. -/
def coerceCell (t : FieldType) (value : Str) : JSValue :=
  match t with
  | .number =>
      match jsParseFloat (stripCommaDollar value) with
      | some d => if d.m = 0 then .num ⟨0, 0⟩ else .num d
      | none => .num ⟨0, 0⟩
  | .array => .arr (((value.splitOn ',').map jsTrim).filter (fun v => !v.isEmpty))
  | _ => .str value

/-- parseColumnFormat: row 0 is the header row; blank headers are
    skipped; the header-to-index map keeps the last index of a repeated
    header; each data row is coerced per detected field type. -/
def parseColumnFormat (values : Grid) : ParsedData :=
  let headers := values.headD []
  let rows := values.tail
  let trimmedIdx : List (Str × Nat) :=
    (headers.enum.map (fun p => (jsTrim p.2, p.1))).filter (fun p => !p.1.isEmpty)
  let validHeaders := trimmedIdx.map Prod.fst
  let hIndex : Str → Option Nat :=
    fun k => trimmedIdx.foldl (fun acc p => if p.1 = k then some p.2 else acc) none
  let fields : List Field := validHeaders.map (fun n => ⟨n, detectFieldType n, true⟩)
  let parsedRows : List RowMap := rows.map (fun row =>
    fields.foldl (fun rd f =>
      let value : Str :=
        match hIndex f.name with
        | some i => row.getD i []
        | none => []
      setKey rd f.name (coerceCell f.type value)) [])
  { fields := fields, data := parsedRows, rowCount := rows.length }

/-- parseMediaPlanData: fewer than 2 rows is malformed input; otherwise
    dispatch on the detected layout. -/
def parseMediaPlanData (values : Grid) : Except SheetError ParsedData :=
  if values.length < 2 then .error .malformedInput
  else if detectKeyValueFormat values then parseKeyValueFormat values
  else .ok (parseColumnFormat values)

/-- convertToCampaignElements: one element per field, valued from the
    first data row, String()-converted and trimmed; empty, n/a, none and
    dash values are dropped; ids are sequential in emission order; no
    category is ever set. -/
def convertToCampaignElements (pd : ParsedData) : List CampaignElement :=
  let firstDataRow := pd.data.headD []
  (pd.fields.foldl (fun (acc : List CampaignElement × Nat) f =>
    let expectedValue := jsTrim (jsToString (jsOr (lookupLast firstDataRow f.name) (.str [])))
    if expectedValue = []
        ∨ jsToLower expectedValue = "n/a".data
        ∨ jsToLower expectedValue = "none".data
        ∨ expectedValue = "-".data
        ∨ expectedValue = [] then acc
    else
      (acc.1 ++ [{ id := "element-".data ++ natDigits acc.2
                   category := none
                   label := f.name
                   expectedValue := expectedValue
                   selected := false
                   xpath := none }],
       acc.2 + 1)) ([], 1)).1

/-- The composition exposed to the orchestration layer (the spec calls it
    parseCampaignGrid): parse the grid, then convert to elements. -/
def parseCampaignGrid (g : Grid) : Except SheetError (List CampaignElement) :=
  (parseMediaPlanData g).map convertToCampaignElements

/-! ## Claim-side definitions for the parser claims -/

/-- The value convertToCampaignElements resolves for a label from the
    first data row. -/
def resolvedValue (row : RowMap) (label : Str) : Str :=
  jsTrim (jsToString (jsOr (lookupLast row label) (.str [])))

/-- The ordered keyword rule table that the source's field-type detection
    actually implements (the amended form of claim C4). -/
def fieldTypeRules : List (List Str × FieldType) :=
  [(["budget".data, "cost".data, "price".data], .number),
   (["date".data], .date),
   (["zip".data, "target".data, "audience".data], .array)]

/-- First-match-wins lookup in an ordered keyword rule table, by
    case-insensitive substring matching; default is string. -/
def tableFieldType (rules : List (List Str × FieldType)) (name : Str) : FieldType :=
  match rules.find? (fun r => r.1.any (fun k => containsSub (jsToLower name) k)) with
  | some r => r.2
  | none => .string

/-- The rule table that claim C4 (and spec section 4.2) states, including
    bid, start, end and schedule keywords. -/
def claimedFieldTypeRules : List (List Str × FieldType) :=
  [(["budget".data, "cost".data, "price".data, "bid".data], .number),
   (["date".data, "start".data, "end".data, "schedule".data], .date),
   (["zip".data, "target".data, "audience".data], .array)]

/-- Layout detection exactly as claim C7 words it: scan at most the first
    5 rows; a row whose columns 0 and 1, lowercased and trimmed, are
    exactly key/value, or respectively contain those substrings, declares
    key-value layout.  (The claim does not mention the source's
    row-length guard.) -/
def claimedKeyValueDetect (values : Grid) : Bool :=
  (values.take 5).any (fun row =>
    let c1 := jsTrim (jsToLower (row.getD 0 []))
    let c2 := jsTrim (jsToLower (row.getD 1 []))
    (c1 == "key".data && c2 == "value".data)
      || (containsSub c1 "key".data && containsSub c2 "value".data))

/-! ## Concrete inputs used by the parser claims -/

/-- The grid of claim C2 / spec property P1. -/
def gridC2 : Grid :=
  [["Budget".data, "Start Date".data], ["$1,200".data, "2024-01-01".data]]

def eC2a : CampaignElement :=
  ⟨"element-1".data, none, "Budget".data, "1200".data, false, none⟩

def eC2b : CampaignElement :=
  ⟨"element-2".data, none, "Start Date".data, "2024-01-01".data, false, none⟩

/-- A key-value grid that repeats the label Budget. -/
def gridC5 : Grid :=
  [["Key".data, "Value".data], ["Budget".data, "100".data], ["Budget".data, "200".data]]

def eC5a : CampaignElement :=
  ⟨"element-1".data, none, "Budget".data, "200".data, false, none⟩

def eC5b : CampaignElement :=
  ⟨"element-2".data, none, "Budget".data, "200".data, false, none⟩

/-- The grid of claim C7 / spec property P2. -/
def gridC7 : Grid :=
  [["Key".data, "Value".data], ["Line Name".data, "Campaign A".data],
   ["Budget".data, "5000".data]]

def eC7a : CampaignElement :=
  ⟨"element-1".data, none, "Line Name".data, "Campaign A".data, false, none⟩

def eC7b : CampaignElement :=
  ⟨"element-2".data, none, "Budget".data, "5000".data, false, none⟩

end AdOps

namespace AdOps

/-! ## JSON values (the reconciliation engine, src QA route: processQAResults)

The agent output is scanned for an embedded JSON block and parsed with
JSON.parse; parsed values are stored into QAResult fields without
validation, so those fields are modelled as arbitrary JSON values. -/

inductive Json where
  | null
  | bool (b : Bool)
  | num (d : Dec)
  | str (s : Str)
  | arr (xs : List Json)
  | obj (members : List (Str × Json))

/-- JavaScript truthiness on JSON values (arrays and objects, even empty
    ones, are truthy). -/
def jsonTruthy : Json → Bool
  | .null => false
  | .bool b => b
  | .num d => d.m != 0
  | .str s => !s.isEmpty
  | .arr _ => true
  | .obj _ => true

/-- Property access on a parsed JSON value: objects give the last binding
    of the key (later duplicate keys win in JSON.parse), anything else
    gives undefined. -/
def jsonGet (v : Json) (k : Str) : Option Json :=
  match v with
  | .obj ms => ms.foldl (fun acc p => if p.1 = k then some p.2 else acc) none
  | _ => none

/-- Model of (v or-else default) on a possibly-undefined JSON value. -/
def jsOrJson (v : Option Json) (d : Json) : Json :=
  match v with
  | some x => if jsonTruthy x then x else d
  | none => d

/-! ## A JSON parser (JSON.parse) -/

def isJsonWs (c : Char) : Bool := c == ' ' || c == '\t' || c == '\n' || c == '\r'

def hexVal (c : Char) : Option Nat :=
  if isDigit c then some (c.toNat - 48)
  else if 'a' ≤ c && c ≤ 'f' then some (c.toNat - 87)
  else if 'A' ≤ c && c ≤ 'F' then some (c.toNat - 55)
  else none

/-- JSON string body after the opening quote: ordinary characters,
    escapes, and four-hex-digit escapes; gives the content and the rest
    after the closing quote.  (A lone surrogate escape is modelled as the
    null character; no input here contains one.) -/
def parseJsonStringBody : Nat → Str → Option (Str × Str)
  | 0, _ => none
  | _, [] => none
  | fuel + 1, c :: rest =>
      if c = '"' then some ([], rest)
      else if c = '\\' then
        match rest with
        | [] => none
        | e :: rest2 =>
            let cont : Char → Str → Option (Str × Str) := fun ch r =>
              (parseJsonStringBody fuel r).map (fun p => (ch :: p.1, p.2))
            if e = '"' then cont '"' rest2
            else if e = '\\' then cont '\\' rest2
            else if e = '/' then cont '/' rest2
            else if e = 'b' then cont (Char.ofNat 8) rest2
            else if e = 'f' then cont (Char.ofNat 12) rest2
            else if e = 'n' then cont '\n' rest2
            else if e = 'r' then cont '\r' rest2
            else if e = 't' then cont '\t' rest2
            else if e = 'u' then
              match rest2 with
              | h1 :: h2 :: h3 :: h4 :: rest3 =>
                  match hexVal h1, hexVal h2, hexVal h3, hexVal h4 with
                  | some a, some b, some c2, some d =>
                      cont (Char.ofNat (((a * 16 + b) * 16 + c2) * 16 + d)) rest3
                  | _, _, _, _ => none
              | _ => none
            else none
      else if c.toNat < 32 then none
      else (parseJsonStringBody fuel rest).map (fun p => (c :: p.1, p.2))

/-- Strict JSON number: optional minus, integer part without leading
    zeros, optional fraction, optional exponent. -/
def parseJsonNumber (s : Str) : Option (Dec × Str) :=
  let signAndRest : ℤ × Str :=
    match s with
    | '-' :: r => (-1, r)
    | _ => (1, s)
  let sign := signAndRest.1
  let (ip, s2) := takeDigits signAndRest.2
  if ip.isEmpty then none
  else if ip.length > 1 && ip.headD '0' == '0' then none
  else
    let finish : Str → Str → Option (Dec × Str) := fun fp s3 =>
      let mant : ℤ := sign * ((digitsVal ip : ℤ) * (10 : ℤ) ^ fp.length + (digitsVal fp : ℤ))
      match s3 with
      | 'e' :: r | 'E' :: r =>
          let esignAndRest : ℤ × Str :=
            match r with
            | '+' :: t => (1, t)
            | '-' :: t => (-1, t)
            | _ => (1, r)
          let (ds, r3) := takeDigits esignAndRest.2
          if ds.isEmpty then none
          else some (⟨mant, esignAndRest.1 * (digitsVal ds : ℤ) - fp.length⟩, r3)
      | _ => some (⟨mant, -(fp.length : ℤ)⟩, s3)
    match s2 with
    | '.' :: r =>
        let (fp, s3) := takeDigits r
        if fp.isEmpty then none else finish fp s3
    | _ => finish [] s2

mutual

def parseJsonValue : Nat → Str → Option (Json × Str)
  | 0, _ => none
  | fuel + 1, s0 =>
    let s := s0.dropWhile isJsonWs
    match s with
    | '{' :: rest =>
        match rest.dropWhile isJsonWs with
        | '}' :: r2 => some (.obj [], r2)
        | _ =>
            match parseJsonMembers fuel rest with
            | some (ms, r2) => some (.obj ms, r2)
            | none => none
    | '[' :: rest =>
        match rest.dropWhile isJsonWs with
        | ']' :: r2 => some (.arr [], r2)
        | _ =>
            match parseJsonItems fuel rest with
            | some (xs, r2) => some (.arr xs, r2)
            | none => none
    | '"' :: rest =>
        match parseJsonStringBody (rest.length + 1) rest with
        | some (t, r2) => some (.str t, r2)
        | none => none
    | 't' :: 'r' :: 'u' :: 'e' :: r2 => some (.bool true, r2)
    | 'f' :: 'a' :: 'l' :: 's' :: 'e' :: r2 => some (.bool false, r2)
    | 'n' :: 'u' :: 'l' :: 'l' :: r2 => some (.null, r2)
    | _ =>
        match parseJsonNumber s with
        | some (d, r2) => some (.num d, r2)
        | none => none

def parseJsonMembers : Nat → Str → Option (List (Str × Json) × Str)
  | 0, _ => none
  | fuel + 1, s =>
      match s.dropWhile isJsonWs with
      | '"' :: rest =>
          match parseJsonStringBody (rest.length + 1) rest with
          | some (key, r2) =>
              match r2.dropWhile isJsonWs with
              | ':' :: r4 =>
                  match parseJsonValue fuel r4 with
                  | some (v, r5) =>
                      match r5.dropWhile isJsonWs with
                      | ',' :: r7 =>
                          match parseJsonMembers fuel r7 with
                          | some (ms, r8) => some ((key, v) :: ms, r8)
                          | none => none
                      | '}' :: r7 => some ([(key, v)], r7)
                      | _ => none
                  | none => none
              | _ => none
          | none => none
      | _ => none

def parseJsonItems : Nat → Str → Option (List Json × Str)
  | 0, _ => none
  | fuel + 1, s =>
      match parseJsonValue fuel s with
      | some (v, r1) =>
          match r1.dropWhile isJsonWs with
          | ',' :: r3 =>
              match parseJsonItems fuel r3 with
              | some (xs, r4) => some (v :: xs, r4)
              | none => none
          | ']' :: r3 => some ([v], r3)
          | _ => none
      | none => none

end

/-- JSON.parse: a single value with only whitespace around it. -/
def parseJson (s : Str) : Option Json :=
  match parseJsonValue (s.length + 1) s with
  | some (v, rest) => if (rest.dropWhile isJsonWs).isEmpty then some v else none
  | none => none

/-! ## The embedded-JSON search (Strategy 1) -/

/-- Split at the first occurrence of a character: the pieces before and
    after it, the character not occurring in the first piece. -/
def splitAtFirst (ch : Char) : Str → Option (Str × Str)
  | [] => none
  | c :: rest =>
      if c = ch then some ([], rest)
      else (splitAtFirst ch rest).map (fun p => (c :: p.1, p.2))

/-- Split at the last occurrence of a character: the pieces before and
    after it, the character not occurring in the second piece. -/
def splitAtLast (ch : Char) (s : Str) : Option (Str × Str) :=
  (splitAtFirst ch s.reverse).map (fun p => (p.2.reverse, p.1.reverse))

/-- The quoted key the embedded-JSON regex requires. -/
def vrKey : Str := "\"validationResults\"".data

/-- The first match of the brace-to-brace greedy search for a block
    containing the quoted validationResults key: the span from the first
    opening brace to the last closing brace, provided the key occurs
    strictly between them with room before that closing brace. -/
def jsonCandidate (content : Str) : Option Str :=
  match splitAtFirst '{' content, splitAtLast '}' content with
  | some (a, _), some (pre, _) =>
      if a.length ≤ pre.length && containsSub (pre.drop (a.length + 1)) vrKey
      then some (pre.drop a.length ++ ['}'])
      else none
  | _, _ => none

/-- The parsed validationResults array, when the matched block parses as
    JSON and carries a truthy array under that key. -/
def jsonVR (content : Str) : Option (List Json) :=
  match jsonCandidate content with
  | none => none
  | some cand =>
      match parseJson cand with
      | none => none
      | some v =>
          match jsonGet v "validationResults".data with
          | some w =>
              if jsonTruthy w then
                match w with
                | .arr xs => some xs
                | _ => none
              else none
          | none => none

/-! ## QA results -/

/-- One verdict for one element.  The embedded-JSON path stores parsed
    values without validation, so the value fields are JSON values; the
    timestamp field is a wall-clock string no claim depends on and is
    omitted. -/
structure QAResult where
  element : CampaignElement
  actualValue : Json
  status : Json
  confidence : Json
  notes : Json

/-- Convert validationResults entries to results, in array order, keeping
    only entries whose elementId matches a requested element.  A null
    entry makes the property access inside the find callback throw (once
    there is an element to test); the source catches that by falling
    through to text parsing with the partial results kept, recorded here
    by the Bool. -/
def processEntries (elements : List CampaignElement) :
    List Json → List QAResult → List QAResult × Bool
  | [], acc => (acc, false)
  | entry :: rest, acc =>
      match entry with
      | .null =>
          if elements.isEmpty then processEntries elements rest acc
          else (acc, true)
      | _ =>
          let eid := jsonGet entry "elementId".data
          match elements.find? (fun el =>
            match eid with
            | some (.str s) => el.id == s
            | _ => false) with
          | some el =>
              processEntries elements rest (acc ++
                [{ element := el
                   actualValue := jsOrJson (jsonGet entry "actualValue".data) (.str "Not found".data)
                   status := jsOrJson (jsonGet entry "status".data) (.str "WARNING".data)
                   confidence := jsOrJson (jsonGet entry "confidence".data) (.num ⟨50, 0⟩)
                   notes := jsOrJson (jsonGet entry "notes".data) (.str "No notes provided".data) }])
          | none => processEntries elements rest acc

/-! ## The text-block fallback (Strategies 2 and 3)

The source's regular expressions over the combined agent output are
translated pattern by pattern; labels are regex-escaped in the source, so
they match literally. -/

def wsRunLen (s : Str) : Nat := (s.takeWhile isWs).length

/-- Case-insensitive prefix test (the regex i flag, ASCII-faithful). -/
def ciStartsWith (needle hay : Str) : Bool :=
  listStartsWith (jsToLower needle) (jsToLower hay)

/-- End of a lazy any-character run from pos: the first position at or
    after pos where a stop literal matches case-insensitively, or the end
    of the text (the lookahead on ELEMENT:, the next label, or the end
    anchor). -/
def lazyEnd (content : Str) (stops : List Str) (pos : Nat) : Nat :=
  match (List.range (content.length - pos + 1)).find?
      (fun k => k + pos == content.length
        || stops.any (fun sp => ciStartsWith sp (content.drop (k + pos)))) with
  | some k => k + pos
  | none => content.length

/-- Largest whitespace skip a greedy ws-star can take while the literal
    after it still matches (greedy backtracking). -/
def maxWsSkip (lit rest : Str) : Option Nat :=
  ((List.range (wsRunLen rest + 1)).filter
    (fun k => ciStartsWith lit (rest.drop k))).getLast?

/-- First match of pattern 1, ELEMENT: ws label lazy-any with lookahead
    ELEMENT: or end, as start and exclusive end positions. -/
def matchP1From (content lab : Str) : Option (Nat × Nat) :=
  (List.range content.length).findSome? (fun idx =>
    let rest := content.drop idx
    if ciStartsWith "ELEMENT:".data rest then
      match maxWsSkip lab (rest.drop 8) with
      | some k => some (idx, lazyEnd content ["ELEMENT:".data] (idx + 8 + k + lab.length))
      | none => none
    else none)

/-- First match of pattern 2, label lazy-any with lookahead ELEMENT:, the
    next element's label, or end. -/
def matchP2From (content lab nlab : Str) : Option (Nat × Nat) :=
  (List.range content.length).findSome? (fun idx =>
    if ciStartsWith lab (content.drop idx) then
      some (idx, lazyEnd content ["ELEMENT:".data, nlab] (idx + lab.length))
    else none)

def sliceStr (content : Str) (se : Option (Nat × Nat)) : Str :=
  match se with
  | some (s, e) => (content.take e).drop s
  | none => []

/-- The element's text block: both patterns are tried and the strictly
    longer match replaces the earlier one. -/
def elementBlock (content lab nlab : Str) : Str :=
  let b1 := sliceStr content (matchP1From content lab)
  let b2 := sliceStr content (matchP2From content lab nlab)
  if b2.length > b1.length then b2 else b1

def lineTail (s : Str) : Str := s.takeWhile (fun c => !(c == '\n' || c == '\r'))

/-- First match of a key ws rest-of-line pattern (ACTUAL: and NOTES:
    lines): the greedy whitespace skip backtracks until at least one
    non-newline character can be captured. -/
def matchKeyLine (key block : Str) : Option Str :=
  (List.range block.length).findSome? (fun idx =>
    let rest := block.drop idx
    if ciStartsWith key rest then
      let after := rest.drop key.length
      match ((List.range (wsRunLen after + 1)).filter (fun k =>
          match after.drop k with
          | c :: _ => !(c == '\n' || c == '\r')
          | [] => false)).getLast? with
      | some k => some (lineTail (after.drop k))
      | none => none
    else none)

/-- First match of STATUS: ws one of PASS, FAIL, WARNING (case
    insensitive); the source uppercases the capture. -/
def matchStatus (block : Str) : Option Str :=
  (List.range block.length).findSome? (fun idx =>
    let rest := block.drop idx
    if ciStartsWith "STATUS:".data rest then
      let after := rest.drop 7
      match ((List.range (wsRunLen after + 1)).filter (fun k =>
          ciStartsWith "PASS".data (after.drop k)
          || ciStartsWith "FAIL".data (after.drop k)
          || ciStartsWith "WARNING".data (after.drop k))).getLast? with
      | some k =>
          let w := after.drop k
          if ciStartsWith "PASS".data w then some "PASS".data
          else if ciStartsWith "FAIL".data w then some "FAIL".data
          else some "WARNING".data
      | none => none
    else none)

/-- First match of CONFIDENCE: ws digits with optional percent sign; the
    value is the parseInt of the digit run. -/
def matchConfidence (block : Str) : Option Nat :=
  (List.range block.length).findSome? (fun idx =>
    let rest := block.drop idx
    if ciStartsWith "CONFIDENCE:".data rest then
      let after := rest.drop 11
      match ((List.range (wsRunLen after + 1)).filter (fun k =>
          match after.drop k with
          | c :: _ => isDigit c
          | [] => false)).getLast? with
      | some k => some (digitsVal ((after.drop k).takeWhile isDigit))
      | none => none
    else none)

/-- A double-quoted nonempty capture: opening quote, maximal run of
    non-quote characters, closing quote. -/
def quotedCapture (s : Str) : Option Str :=
  match s with
  | '"' :: rest =>
      let cap := rest.takeWhile (fun c => c ≠ '"')
      if cap.isEmpty then none
      else if (rest.drop cap.length).isEmpty then none
      else some cap
  | _ => none

/-- First match of key whitespace quoted-capture (whitespace required
    when atLeastOneWs). -/
def matchKeyQuoted (key : Str) (atLeastOneWs : Bool) (block : Str) : Option Str :=
  (List.range block.length).findSome? (fun idx =>
    let rest := block.drop idx
    if ciStartsWith key rest then
      let after := rest.drop key.length
      let n := wsRunLen after
      if atLeastOneWs && n == 0 then none
      else quotedCapture (after.drop n)
    else none)

/-- First match of On page: lazy same-line run, then a quoted capture. -/
def matchOnPage (block : Str) : Option Str :=
  (List.range block.length).findSome? (fun idx =>
    let rest := block.drop idx
    if ciStartsWith "On page:".data rest then
      let after := rest.drop 8
      let lineRun := (after.takeWhile (fun c => !(c == '\n' || c == '\r'))).length
      (List.range (lineRun + 1)).findSome? (fun k => quotedCapture (after.drop k))
    else none)

/-- The ACTUAL value extraction: the ACTUAL: line pattern, then the three
    quoted patterns, first hit wins. -/
def extractActual (block : Str) : Option Str :=
  match matchKeyLine "ACTUAL:".data block with
  | some v => some v
  | none =>
      match matchKeyQuoted "Actual value found:".data false block with
      | some v => some v
      | none =>
          match matchOnPage block with
          | some v => some v
          | none => matchKeyQuoted "Actual".data true block

/-- The next element's label, or the END literal when there is none or it
    is empty (falsy).  The source indexes with indexOf on the iterated
    object, which is the element's own position since request elements
    are distinct object references. -/
def nextLabel (elements : List CampaignElement) (i : Nat) : Str :=
  match elements.get? (i + 1) with
  | some el => if el.label.isEmpty then "END".data else el.label
  | none => "END".data

/-- The per-element fallback: the pre-seeded defaults, overridden by the
    fields extracted from the element's text block when one matched, or
    by the keyword sniff over a 500-character window otherwise. -/
def fallbackResult (content : Str) (elements : List CampaignElement)
    (i : Nat) (el : CampaignElement) : QAResult :=
  let base : QAResult :=
    { element := el
      actualValue := .str "Unable to determine".data
      status := .str "WARNING".data
      confidence := .num ⟨50, 0⟩
      notes := .str "QA validation completed but specific result unclear".data }
  let blk := elementBlock content el.label (nextLabel elements i)
  if !blk.isEmpty then
    let r1 := match extractActual blk with
      | some v => { base with actualValue := .str (jsTrim v) }
      | none => base
    let r2 := match matchStatus blk with
      | some st => { r1 with status := .str st }
      | none => r1
    let r3 := match matchConfidence blk with
      | some n => { r2 with confidence := .num ⟨(n : ℤ), 0⟩ }
      | none => r2
    match matchKeyLine "NOTES:".data blk with
    | some v => { r3 with notes := .str (jsTrim v) }
    | none => r3
  else
    let lc := jsToLower content
    if containsSub lc (jsToLower el.label) || containsSub lc (jsToLower el.expectedValue) then
      match idxOfSub (jsToLower el.label) lc with
      | some cs =>
          let context := (content.drop cs).take 500
          if containsSub (jsToLower context) "pass".data then
            { base with status := .str "PASS".data
                        confidence := .num ⟨75, 0⟩
                        actualValue := .str "Found and validated".data
                        notes := .str "Element found and appears to match expected value".data }
          else if containsSub (jsToLower context) "fail".data then
            { base with status := .str "FAIL".data
                        confidence := .num ⟨25, 0⟩
                        actualValue := .str "Found but does not match".data
                        notes := .str "Element found but validation failed".data }
          else base
      | none => base
    else base

def fallbackResults (content : Str) (elements : List CampaignElement) : List QAResult :=
  elements.enum.map (fun p => fallbackResult content elements p.1 p.2)

/-- processQAResults over the combined agent output: the embedded-JSON
    strategy returns its results whenever a validationResults array
    parses (appending the per-element fallback after a mid-array abort);
    otherwise one fallback result per element, in order.  The outer
    catch of the source is unreachable for string input; the model is
    total. -/
def processQAResults (content : Str) (elements : List CampaignElement) : List QAResult :=
  match jsonVR content with
  | some entries =>
      match processEntries elements entries [] with
      | (results, false) => results
      | (results, true) => results ++ fallbackResults content elements
  | none => fallbackResults content elements

/-! ## Aggregation -/

inductive OverallStatus where
  | PASS | FAIL
deriving DecidableEq

/-- Strict equality of a runtime value with a string literal. -/
def jsonEqStr (v : Json) (s : Str) : Bool :=
  match v with
  | .str t => t == s
  | _ => false

structure Summary where
  total : Nat
  passed : Nat
  failed : Nat
  warnings : Nat
deriving DecidableEq

def calculateSummary (results : List QAResult) : Summary :=
  { total := results.length
    passed := (results.filter (fun r => jsonEqStr r.status "PASS".data)).length
    failed := (results.filter (fun r => jsonEqStr r.status "FAIL".data)).length
    warnings := (results.filter (fun r => jsonEqStr r.status "WARNING".data)).length }

/-- determineOverallStatus: FAIL when a FAIL result sits in a critical
    category (budget or dates) or failures exceed 20 percent of all
    results; the 0.2 literal is the exact decimal two tenths. -/
def determineOverallStatus (results : List QAResult) : OverallStatus :=
  let failedCount := (results.filter (fun r => jsonEqStr r.status "FAIL".data)).length
  let criticalFailures := (results.filter (fun r =>
    jsonEqStr r.status "FAIL".data &&
      (r.element.category == some "budget".data
        || r.element.category == some "dates".data))).length
  if criticalFailures > 0
      || Dec.lt ⟨(results.length : ℤ) * 2, -1⟩ ⟨(failedCount : ℤ), 0⟩
  then .FAIL else .PASS

/-! ## Concrete inputs used by the reconciliation claims -/

/-- A requested element as the QA route receives it. -/
def eR1 : CampaignElement :=
  ⟨"element-1".data, none, "Line Name".data, "Campaign A".data, false, none⟩

def eR2 : CampaignElement :=
  ⟨"element-2".data, none, "Budget".data, "5000".data, false, none⟩

/-- Agent output whose embedded JSON covers only element-1 of a
    two-element request. -/
def contentC1 : Str :=
  "\x7b\"validationResults\": [\x7b\"elementId\": \"element-1\", \"status\": \"PASS\", \"confidence\": 100\x7d]\x7d".data

/-- Agent output with no JSON at all but an explicit CONFIDENCE line for
    the element labeled Budget. -/
def contentC3 : Str := "Budget CONFIDENCE: 100".data

/-- The well-formed embedded JSON block of claim C6 (one validation
    result for element-1, PASS with confidence 100). -/
def jsonC6 : Str :=
  "\x7b\"validationResults\": [\x7b\"elementId\": \"element-1\", \"actualValue\": \"Campaign A\", \"status\": \"PASS\", \"confidence\": 100, \"notes\": \"Exact match found\"\x7d]\x7d".data

/-- The parsed validationResults array of that block. -/
def entriesC6 : List Json :=
  [Json.obj
    [("elementId".data, Json.str "element-1".data),
     ("actualValue".data, Json.str "Campaign A".data),
     ("status".data, Json.str "PASS".data),
     ("confidence".data, Json.num ⟨100, 0⟩),
     ("notes".data, Json.str "Exact match found".data)]]

/-- The result that block produces for a request containing element-1. -/
def rC6 (el : CampaignElement) : QAResult :=
  { element := el
    actualValue := .str "Campaign A".data
    status := .str "PASS".data
    confidence := .num ⟨100, 0⟩
    notes := .str "Exact match found".data }

end AdOps

namespace AdOps

/-! ## General lemmas about the parser -/

lemma dropWhile_head_not (p : Char → Bool) (l : Str) (c : Char)
    (h : (l.dropWhile p).head? = some c) : ¬ p c := by
  induction l with
  | nil => simp [List.dropWhile] at h
  | cons a as ih =>
    simp only [List.dropWhile] at h
    cases hp : p a with
    | true => rw [hp] at h; exact ih h
    | false => rw [hp] at h; simp at h; subst h; simp [hp]

lemma dropWhile_eq_self_of_head (p : Char → Bool) (l : Str)
    (h : ∀ c, l.head? = some c → ¬ p c) : l.dropWhile p = l := by
  cases l with
  | nil => rfl
  | cons a as =>
    have := h a rfl
    simp only [List.dropWhile]
    cases hp : p a with
    | true => exact absurd hp this
    | false => rfl

lemma getLast?_dropWhile (p : Char → Bool) (l : Str)
    (h : l.dropWhile p ≠ []) : (l.dropWhile p).getLast? = l.getLast? := by
  induction l with
  | nil => simp at h
  | cons a as ih =>
    simp only [List.dropWhile] at h ⊢
    cases hp : p a with
    | true =>
      rw [hp] at h
      replace h : List.dropWhile p as ≠ [] := h
      show (List.dropWhile p as).getLast? = (a :: as).getLast?
      rw [ih h]
      have hne : as ≠ [] := by
        intro e; rw [e] at h; simp [List.dropWhile] at h
      cases as with
      | nil => simp at hne
      | cons b bs => simp [List.getLast?_cons_cons]
    | false => rfl

/-- Trimming is idempotent. -/
lemma jsTrim_idem (s : Str) : jsTrim (jsTrim s) = jsTrim s := by
  unfold jsTrim
  set u := s.dropWhile isWs with hu
  set w := u.reverse.dropWhile isWs with hw
  have h1 : w.reverse.dropWhile isWs = w.reverse := by
    apply dropWhile_eq_self_of_head
    intro c hc
    rw [List.head?_reverse] at hc
    by_cases hwn : w = []
    · rw [hwn] at hc; simp at hc
    · have h2 := getLast?_dropWhile isWs u.reverse (hw ▸ hwn)
      rw [← hw] at h2
      rw [h2] at hc
      rw [List.getLast?_reverse] at hc
      exact dropWhile_head_not isWs s c (hu ▸ hc)
  rw [h1, List.reverse_reverse, hw, List.dropWhile_idempotent]

lemma parseCampaignGrid_ok {g : Grid} {es : List CampaignElement}
    (h : parseCampaignGrid g = .ok es) :
    ∃ pd, parseMediaPlanData g = .ok pd ∧ es = convertToCampaignElements pd := by
  unfold parseCampaignGrid at h
  cases hp : parseMediaPlanData g with
  | error e => rw [hp] at h; simp [Except.map] at h
  | ok pd =>
    rw [hp] at h
    simp [Except.map] at h
    exact ⟨pd, rfl, h.symm⟩

/-- Every element the conversion step emits comes from some field, has no
    category, carries the deterministically resolved value of its label,
    and survived the noise filter. -/
lemma convert_mem_aux (row : RowMap) (fields : List Field)
    (acc : List CampaignElement × Nat) (e : CampaignElement)
    (h : e ∈ (fields.foldl (fun (acc : List CampaignElement × Nat) f =>
        let expectedValue := jsTrim (jsToString (jsOr (lookupLast row f.name) (.str [])))
        if expectedValue = []
            ∨ jsToLower expectedValue = "n/a".data
            ∨ jsToLower expectedValue = "none".data
            ∨ expectedValue = "-".data
            ∨ expectedValue = [] then acc
        else
          (acc.1 ++ [{ id := "element-".data ++ natDigits acc.2
                       category := none
                       label := f.name
                       expectedValue := expectedValue
                       selected := false
                       xpath := none }],
           acc.2 + 1)) acc).1) :
    e ∈ acc.1 ∨ ∃ f, f ∈ fields ∧ ∃ n : Nat,
      e = { id := "element-".data ++ natDigits n, category := none, label := f.name,
            expectedValue := resolvedValue row f.name, selected := false, xpath := none } ∧
      ¬ (resolvedValue row f.name = []
         ∨ jsToLower (resolvedValue row f.name) = "n/a".data
         ∨ jsToLower (resolvedValue row f.name) = "none".data
         ∨ resolvedValue row f.name = "-".data
         ∨ resolvedValue row f.name = []) := by
  induction fields generalizing acc with
  | nil => exact Or.inl h
  | cons f fs ih =>
    rw [List.foldl_cons] at h
    rcases ih _ h with h1 | ⟨g, hg, n, he, hc⟩
    · dsimp only at h1
      split at h1
      · exact Or.inl h1
      · rcases List.mem_append.mp h1 with h2 | h2
        · exact Or.inl h2
        · rename_i hcond
          simp only [List.mem_singleton] at h2
          refine Or.inr ⟨f, List.mem_cons_self f fs, acc.2, ?_, hcond⟩
          rw [h2]; rfl
    · exact Or.inr ⟨g, List.mem_cons_of_mem f hg, n, he, hc⟩

lemma convert_mem_spec (pd : ParsedData) (e : CampaignElement)
    (h : e ∈ convertToCampaignElements pd) :
    e.category = none ∧
    e.expectedValue = resolvedValue (pd.data.headD []) e.label ∧
    ¬ (e.expectedValue = [] ∨ jsToLower e.expectedValue = "n/a".data
       ∨ jsToLower e.expectedValue = "none".data ∨ e.expectedValue = "-".data) := by
  unfold convertToCampaignElements at h
  rcases convert_mem_aux (pd.data.headD []) pd.fields ([], 1) e h with h1 | ⟨f, _, n, he, hc⟩
  · simp at h1
  · subst he
    refine ⟨rfl, rfl, ?_⟩
    intro hcon
    apply hc
    rcases hcon with h | h | h | h
    · exact Or.inl h
    · exact Or.inr (Or.inl h)
    · exact Or.inr (Or.inr (Or.inl h))
    · exact Or.inr (Or.inr (Or.inr (Or.inl h)))

end AdOps

namespace AdOps

deriving instance DecidableEq for Except

/-! ## Claim C2 -/

/-- C2 counterexample: on the grid with header row Budget, Start Date and
    data row dollar-1,200 and 2024-01-01, the Budget element's expected
    value is the coerced string 1200, not the verbatim source string:
    number-typed columns do not keep their original representation. -/
theorem C2_counterexample :
    parseCampaignGrid gridC2 = .ok [eC2a, eC2b] ∧
    eC2a.expectedValue ≠ "$1,200".data := by
  exact ⟨rfl, by decide⟩

/-- C2 (amended): parsing the grid with header row Budget, Start Date and
    one data row dollar-1,200 and 2024-01-01 yields exactly 2 elements
    labeled Budget and Start Date; Start Date keeps its value verbatim,
    while the number-typed Budget column is stripped of commas and dollar
    signs, parsed as a float and rendered back, giving 1200. -/
theorem C2_amended : parseCampaignGrid gridC2 = .ok [eC2a, eC2b] := rfl

/-! ## Claim C4 -/

/-- C4 counterexample: the claimed rule table maps the field name bid to
    number, but the source's detection maps it to string (the code checks
    only budget, cost and price for numbers, and only date for dates). -/
theorem C4_counterexample :
    tableFieldType claimedFieldTypeRules "bid".data = .number ∧
    detectFieldType "bid".data = .string := ⟨rfl, rfl⟩

/-- C4 (amended): field type inference in the columnar path is a pure
    function of the field name by case-insensitive substring matching
    against an ordered rule table, first match wins, with the rules:
    budget, cost or price give number; date gives date; zip, target or
    audience give array; everything else gives string (no bid, start, end
    or schedule keywords). -/
theorem C4_amended (name : Str) :
    detectFieldType name = tableFieldType fieldTypeRules name := by
  unfold detectFieldType tableFieldType fieldTypeRules
  simp only [List.find?, List.any_cons, List.any_nil, Bool.or_false, Bool.or_assoc]
  by_cases h1 : (containsSub (jsToLower name) "budget".data
      || (containsSub (jsToLower name) "cost".data
      || containsSub (jsToLower name) "price".data)) = true
  · simp [h1]
  · simp only [Bool.not_eq_true] at h1
    simp only [h1]
    by_cases h2 : containsSub (jsToLower name) "date".data = true
    · simp [h2]
    · simp only [Bool.not_eq_true] at h2
      simp only [h2]
      by_cases h3 : (containsSub (jsToLower name) "zip".data
          || (containsSub (jsToLower name) "target".data
          || containsSub (jsToLower name) "audience".data)) = true
      · simp [h3]
      · simp only [Bool.not_eq_true] at h3
        simp [h3]

/-! ## Claim C5 -/

/-- C5 counterexample: a key-value sheet repeating the label Budget
    produces two output elements with the same label, so a single parse
    can emit a label twice. -/
theorem C5_counterexample :
    parseCampaignGrid gridC5 = .ok [eC5a, eC5b] ∧ eC5a.label = eC5b.label :=
  ⟨rfl, rfl⟩

/-- C5 (amended): a repeated label is emitted once per occurrence rather
    than deduplicated, but deterministically: any two elements of one
    parse that share a label carry the same expected value (the value
    resolved for that label from the first data row, where the last
    occurrence of a key wins). -/
theorem C5_amended (g : Grid) (es : List CampaignElement) (e1 e2 : CampaignElement)
    (h : parseCampaignGrid g = .ok es) (h1 : e1 ∈ es) (h2 : e2 ∈ es)
    (hl : e1.label = e2.label) : e1.expectedValue = e2.expectedValue := by
  rcases parseCampaignGrid_ok h with ⟨pd, _, hes⟩
  subst hes
  have s1 := (convert_mem_spec pd e1 h1).2.1
  have s2 := (convert_mem_spec pd e2 h2).2.1
  rw [s1, s2, hl]

/-- Witness for C5 (amended) at the duplicate-label grid. -/
theorem C5_witness :
    parseCampaignGrid gridC5 = .ok [eC5a, eC5b] ∧
    eC5a.expectedValue = eC5b.expectedValue :=
  ⟨rfl, C5_amended gridC5 [eC5a, eC5b] eC5a eC5b rfl (by simp) (by simp) rfl⟩

/-! ## Claim C7 -/

/-- C7: layout detection scans at most the first 5 rows, declaring
    key-value exactly when a row's first two columns, lowercased and
    trimmed, are exactly key/value or respectively contain those
    substrings; and the concrete Key/Value grid of the claim parses to
    exactly the two elements Line Name mapped to Campaign A and Budget
    mapped to 5000. -/
theorem C7_layout_detection :
    (∀ g : Grid, detectKeyValueFormat g = claimedKeyValueDetect g) ∧
    parseCampaignGrid gridC7 = .ok [eC7a, eC7b] := by
  constructor
  · intro g
    unfold detectKeyValueFormat claimedKeyValueDetect
    congr 1
    funext row
    cases row with
    | nil => rfl
    | cons a as =>
      cases as with
      | nil =>
        show kvHeaderRow [a] = _
        simp [kvHeaderRow, jsToLower, jsTrim, containsSub]
      | cons b bs =>
        show kvHeaderRow (a :: b :: bs) = _
        unfold kvHeaderRow
        rw [decide_eq_true (by simp : (a :: b :: bs).length ≥ 2), Bool.true_and]
  · rfl

/-! ## Claim C8 -/

/-- C8: for every grid accepted by the parser and both layout paths, no
    emitted element's value, after trimming, is empty or equals
    case-insensitively n/a, none, or the dash placeholder. -/
theorem C8_noise_filtering (g : Grid) (es : List CampaignElement) (e : CampaignElement)
    (h : parseCampaignGrid g = .ok es) (hm : e ∈ es) :
    ¬ (jsTrim e.expectedValue = []
       ∨ jsToLower (jsTrim e.expectedValue) = "n/a".data
       ∨ jsToLower (jsTrim e.expectedValue) = "none".data
       ∨ jsTrim e.expectedValue = "-".data) := by
  rcases parseCampaignGrid_ok h with ⟨pd, _, hes⟩
  subst hes
  obtain ⟨_, hval, hfil⟩ := convert_mem_spec pd e hm
  have hidem : jsTrim e.expectedValue = e.expectedValue := by
    rw [hval]; unfold resolvedValue; exact jsTrim_idem _
  rw [hidem]
  exact hfil

/-- Witness for C8 at the Key/Value grid of claim C7. -/
theorem C8_witness :
    parseCampaignGrid gridC7 = .ok [eC7a, eC7b] ∧
    ¬ (jsTrim eC7a.expectedValue = []
       ∨ jsToLower (jsTrim eC7a.expectedValue) = "n/a".data
       ∨ jsToLower (jsTrim eC7a.expectedValue) = "none".data
       ∨ jsTrim eC7a.expectedValue = "-".data) :=
  ⟨rfl, C8_noise_filtering gridC7 [eC7a, eC7b] eC7a rfl (by simp)⟩

/-! ## Claim C9 -/

/-- C9: a grid with fewer than 2 rows makes parseMediaPlanData fail with
    the malformed-input error instead of returning parsed data. -/
theorem C9_malformed_input (g : Grid) (h : g.length < 2) :
    parseMediaPlanData g = .error .malformedInput := by
  unfold parseMediaPlanData
  rw [if_pos h]

/-- Witness for C9 at the empty grid. -/
theorem C9_witness :
    ([] : Grid).length < 2 ∧ parseMediaPlanData [] = .error .malformedInput :=
  ⟨by decide, C9_malformed_input [] (by decide)⟩

end AdOps

namespace AdOps

/-! ## General lemmas about the reconciliation engine -/

lemma fallbackResult_element (c : Str) (es : List CampaignElement) (i : Nat)
    (el : CampaignElement) : (fallbackResult c es i el).element = el := by
  unfold fallbackResult
  dsimp only
  split
  · split <;> split <;> split <;> split <;> rfl
  · split
    · split
      · split
        · rfl
        · split <;> rfl
      · rfl
    · rfl

lemma enumFrom_get? (l : List α) (n i : Nat) :
    (List.enumFrom n l).get? i = (l.get? i).map (fun a => (n + i, a)) := by
  induction l generalizing n i with
  | nil => simp
  | cons a as ih =>
    cases i with
    | zero => simp [List.enumFrom]
    | succ j =>
      simp only [List.enumFrom, List.get?_cons_succ, ih (n + 1) j, Option.map]
      cases as.get? j with
      | none => rfl
      | some b => simp; omega

lemma enum_get? (l : List α) (i : Nat) :
    l.enum.get? i = (l.get? i).map (fun a => (i, a)) := by
  have h := enumFrom_get? l 0 i
  simp only [Nat.zero_add] at h
  exact h

lemma fallbackResults_mem (c : Str) (es : List CampaignElement) (r : QAResult)
    (h : r ∈ fallbackResults c es) : r.element ∈ es := by
  unfold fallbackResults at h
  rcases List.mem_map.mp h with ⟨p, hp, he⟩
  rw [← he, fallbackResult_element]
  have h2 : p.2 ∈ List.map Prod.snd es.enum := List.mem_map_of_mem Prod.snd hp
  rwa [List.enum_map_snd] at h2

lemma fallbackResults_map_element (c : Str) (es : List CampaignElement) :
    (fallbackResults c es).map QAResult.element = es := by
  unfold fallbackResults
  rw [List.map_map]
  have h : (QAResult.element ∘ fun p : Nat × CampaignElement => fallbackResult c es p.1 p.2)
      = Prod.snd := by
    funext p; simp [Function.comp, fallbackResult_element]
  rw [h, List.enum_map_snd]

lemma fallbackResults_get? (c : Str) (es : List CampaignElement) (i : Nat)
    (el : CampaignElement) (h : es.get? i = some el) :
    (fallbackResults c es).get? i = some (fallbackResult c es i el) := by
  unfold fallbackResults
  rw [List.get?_map, enum_get? es i, h]
  rfl

lemma processEntries_mem (elements : List CampaignElement) (entries : List Json)
    (acc : List QAResult) (r : QAResult)
    (hacc : ∀ x ∈ acc, x.element ∈ elements)
    (h : r ∈ (processEntries elements entries acc).1) : r.element ∈ elements := by
  induction entries generalizing acc with
  | nil => exact hacc r h
  | cons entry rest ih =>
    rcases entry with _ | b | d | s | xs | ms
    case null =>
      simp only [processEntries] at h
      split at h
      · exact ih acc hacc h
      · exact hacc r h
    all_goals
      simp only [processEntries] at h
      split at h
      · rename_i el hf
        refine ih _ ?_ h
        intro x hx
        rcases List.mem_append.mp hx with hx1 | hx2
        · exact hacc x hx1
        · simp only [List.mem_singleton] at hx2
          subst hx2
          exact List.mem_of_find?_eq_some hf
      · exact ih acc hacc h

lemma processQAResults_mem (content : Str) (elements : List CampaignElement)
    (r : QAResult) (h : r ∈ processQAResults content elements) : r.element ∈ elements := by
  unfold processQAResults at h
  cases hj : jsonVR content with
  | none =>
    rw [hj] at h
    exact fallbackResults_mem content elements r h
  | some entries =>
    rw [hj] at h
    replace h : r ∈ (match processEntries elements entries [] with
        | (results, false) => results
        | (results, true) => results ++ fallbackResults content elements) := h
    rcases hpe : processEntries elements entries [] with ⟨results, aborted⟩
    rw [hpe] at h
    have hres : ∀ x ∈ results, x.element ∈ elements := by
      intro x hx
      refine processEntries_mem elements entries [] x (by simp) ?_
      rw [hpe]
      exact hx
    cases aborted with
    | false =>
      replace h : r ∈ results := h
      exact hres r h
    | true =>
      replace h : r ∈ results ++ fallbackResults content elements := h
      rcases List.mem_append.mp h with h1 | h1
      · exact hres r h1
      · exact fallbackResults_mem content elements r h1

lemma fallbackResult_confidence (c : Str) (es : List CampaignElement) (i : Nat)
    (el : CampaignElement) :
    (fallbackResult c es i el).confidence = Json.num ⟨50, 0⟩ ∨
    (fallbackResult c es i el).confidence = Json.num ⟨25, 0⟩ ∨
    (fallbackResult c es i el).confidence = Json.num ⟨75, 0⟩ ∨
    ∃ n : Nat, matchConfidence (elementBlock c el.label (nextLabel es i)) = some n ∧
      (fallbackResult c es i el).confidence = Json.num ⟨(n : ℤ), 0⟩ := by
  unfold fallbackResult
  dsimp only
  set blk := elementBlock c el.label (nextLabel es i) with hblk
  split
  · cases ha : extractActual blk <;> cases hs : matchStatus blk <;>
      cases hm : matchConfidence blk <;> cases hk : matchKeyLine "NOTES:".data blk <;>
      first
        | (left; rfl)
        | (right; left; rfl)
        | (right; right; left; rfl)
        | (right; right; right; exact ⟨_, rfl, rfl⟩)
  · repeat' split
    all_goals
      first
        | (left; rfl)
        | (right; left; rfl)
        | (right; right; left; rfl)

/-! ## C6 helper lemmas: locating the embedded JSON block -/

lemma splitAtFirst_append (ch : Char) (a b : Str) (ha : ch ∉ a) :
    splitAtFirst ch (a ++ b) = (splitAtFirst ch b).map (fun p => (a ++ p.1, p.2)) := by
  induction a with
  | nil =>
    simp only [List.nil_append]
    cases splitAtFirst ch b with
    | none => rfl
    | some p => rfl
  | cons c a' ih =>
    have hc : ¬ c = ch := fun h => ha (h ▸ List.mem_cons_self c a')
    have ha' : ch ∉ a' := fun h => ha (List.mem_cons_of_mem c h)
    simp only [List.cons_append, splitAtFirst, if_neg hc, List.append_eq]
    rw [ih ha']
    cases splitAtFirst ch b with
    | none => rfl
    | some p => rfl

lemma splitAtFirst_exact (ch : Char) (a b : Str) (ha : ch ∉ a) :
    splitAtFirst ch (a ++ ch :: b) = some (a, b) := by
  rw [splitAtFirst_append ch a _ ha]
  simp [splitAtFirst]

lemma splitAtLast_exact (ch : Char) (a b : Str) (hb : ch ∉ b) :
    splitAtLast ch (a ++ ch :: b) = some (a, b) := by
  unfold splitAtLast
  have h1 : (a ++ ch :: b).reverse = b.reverse ++ ch :: a.reverse := by
    simp [List.reverse_append, List.reverse_cons, List.append_assoc]
  rw [h1, splitAtFirst_exact ch _ _ (by simpa using hb)]
  simp

lemma drop_append_len (a b : Str) (n : Nat) : (a ++ b).drop (a.length + n) = b.drop n := by
  induction a with
  | nil => simp
  | cons c a' ih => simpa [List.length_cons, Nat.succ_add] using ih

set_option maxRecDepth 16384 in
lemma jsonCandidate_C6 (p1 p2 : Str) (h1 : '{' ∉ p1) (h2 : '}' ∉ p2) :
    jsonCandidate (p1 ++ jsonC6 ++ p2) = some jsonC6 := by
  have e1 : p1 ++ jsonC6 ++ p2 = p1 ++ '{' :: (jsonC6.tail ++ p2) := by
    rw [List.append_assoc]; rfl
  have e2 : p1 ++ jsonC6 ++ p2 = (p1 ++ jsonC6.dropLast) ++ '}' :: p2 := by
    conv_lhs => rw [show jsonC6 = jsonC6.dropLast ++ ['}'] from rfl]
    simp [List.append_assoc]
  have s1 : splitAtFirst '{' (p1 ++ jsonC6 ++ p2) = some (p1, jsonC6.tail ++ p2) := by
    rw [e1]; exact splitAtFirst_exact '{' p1 _ h1
  have s2 : splitAtLast '}' (p1 ++ jsonC6 ++ p2) = some (p1 ++ jsonC6.dropLast, p2) := by
    rw [e2]; exact splitAtLast_exact '}' _ p2 h2
  unfold jsonCandidate
  rw [s1, s2]
  dsimp only
  have d1 : (p1 ++ jsonC6.dropLast).drop (p1.length + 1) = jsonC6.dropLast.drop 1 :=
    drop_append_len p1 _ 1
  have d0 : (p1 ++ jsonC6.dropLast).drop p1.length = jsonC6.dropLast :=
    List.drop_left p1 _
  rw [d1, d0]
  have hc : p1.length ≤ (p1 ++ jsonC6.dropLast).length := by simp
  rw [decide_eq_true hc, Bool.true_and]
  rfl

set_option maxRecDepth 16384 in
lemma jsonVR_C6 (p1 p2 : Str) (h1 : '{' ∉ p1) (h2 : '}' ∉ p2) :
    jsonVR (p1 ++ jsonC6 ++ p2) = some entriesC6 := by
  unfold jsonVR
  rw [jsonCandidate_C6 p1 p2 h1 h2]
  rfl

end AdOps

namespace AdOps

/-! ## Claim C1 -/

/-- C1 counterexample: when the agent's embedded JSON covers only
    element-1 of a two-element request, the engine returns a single
    result, not one per requested element. -/
theorem C1_counterexample :
    (processQAResults contentC1 [eR1, eR2]).length = 1 ∧ [eR1, eR2].length = 2 :=
  ⟨rfl, rfl⟩

/-- C1 (amended): the reconciliation engine never throws and every result
    it returns is for a requested element; whenever the embedded-JSON
    strategy does not produce a parsed validationResults array, the
    output is exactly one QAResult per requested element, in input order.
    When that strategy does produce one, the output instead follows the
    JSON array (one result per entry matching a requested element, so
    possibly fewer, reordered or duplicated). -/
theorem C1_reconciliation_amended (content : Str) (elements : List CampaignElement) :
    (∀ r ∈ processQAResults content elements, r.element ∈ elements) ∧
    (jsonVR content = none →
      (processQAResults content elements).map QAResult.element = elements) := by
  constructor
  · exact fun r h => processQAResults_mem content elements r h
  · intro hj
    unfold processQAResults
    rw [hj]
    exact fallbackResults_map_element content elements

/-- Witness for C1 (amended) on JSON-free agent output. -/
theorem C1_witness :
    jsonVR "The agent did not reply.".data = none ∧
    (processQAResults "The agent did not reply.".data [eR1, eR2]).map QAResult.element
      = [eR1, eR2] :=
  ⟨rfl, (C1_reconciliation_amended "The agent did not reply.".data [eR1, eR2]).2 rfl⟩

/-! ## Claim C3 -/

/-- C3 counterexample: on fallback (no embedded JSON), an explicit
    CONFIDENCE: 100 line in the element's text block yields a result with
    confidence 100, which is not at most 50. -/
theorem C3_counterexample :
    jsonVR contentC3 = none ∧
    (processQAResults contentC3 [eR2]).map QAResult.confidence = [Json.num ⟨100, 0⟩] ∧
    Dec.le ⟨100, 0⟩ ⟨50, 0⟩ = false :=
  ⟨rfl, rfl, rfl⟩

/-- C3 (amended): whenever the embedded-JSON strategy yields nothing and
    the engine falls back to text-block scanning or keyword sniffing,
    each element's confidence is one of the defaults 50 (unclear), 25
    (sniffed fail) or 75 (sniffed pass), or else the integer parsed
    verbatim from an explicit CONFIDENCE: line of that element's text
    block, which may exceed 50. -/
theorem C3_confidence_amended (content : Str) (elements : List CampaignElement) (i : Nat)
    (el : CampaignElement) (h : elements.get? i = some el) (hj : jsonVR content = none) :
    ∃ r, (processQAResults content elements).get? i = some r ∧
      (r.confidence = Json.num ⟨50, 0⟩ ∨ r.confidence = Json.num ⟨25, 0⟩ ∨
       r.confidence = Json.num ⟨75, 0⟩ ∨
       ∃ n : Nat, matchConfidence (elementBlock content el.label (nextLabel elements i)) = some n ∧
         r.confidence = Json.num ⟨(n : ℤ), 0⟩) := by
  refine ⟨fallbackResult content elements i el, ?_, ?_⟩
  · unfold processQAResults
    rw [hj]
    exact fallbackResults_get? content elements i el h
  · exact fallbackResult_confidence content elements i el

/-- Witness for C3 (amended) at the CONFIDENCE: 100 output. -/
theorem C3_witness :
    [eR2].get? 0 = some eR2 ∧ jsonVR contentC3 = none ∧
    (∃ r, (processQAResults contentC3 [eR2]).get? 0 = some r ∧
      (r.confidence = Json.num ⟨50, 0⟩ ∨ r.confidence = Json.num ⟨25, 0⟩ ∨
       r.confidence = Json.num ⟨75, 0⟩ ∨
       ∃ n : Nat, matchConfidence (elementBlock contentC3 eR2.label (nextLabel [eR2] 0)) = some n ∧
         r.confidence = Json.num ⟨(n : ℤ), 0⟩)) :=
  ⟨rfl, rfl, C3_confidence_amended contentC3 [eR2] 0 eR2 rfl rfl⟩

/-! ## Claim C6 -/

set_option maxRecDepth 16384 in
/-- C6 counterexample: appending a single stray closing brace of prose
    after the valid embedded JSON block makes the greedy brace-to-brace
    match unparseable, so element-1 gets the low-confidence fallback
    result instead of PASS with confidence 100. -/
theorem C6_counterexample :
    (processQAResults (jsonC6 ++ "\x7d".data) [eR1]).map QAResult.confidence
      = [Json.num ⟨50, 0⟩] ∧
    (processQAResults (jsonC6 ++ "\x7d".data) [eR1]).map QAResult.status
      = [Json.str "WARNING".data] :=
  ⟨rfl, rfl⟩

set_option maxRecDepth 16384 in
/-- C6 (amended): when the validationResults JSON block sits inside prose
    whose leading part contains no opening brace and whose trailing part
    contains no closing brace, and element-1 is among the requested
    elements, the output is exactly the JSON-derived result PASS with
    confidence 100 for element-1; the text-block and keyword-sniff
    strategies never run (short-circuit return). -/
theorem C6_json_priority_amended (p1 p2 : Str) (elements : List CampaignElement)
    (el : CampaignElement) (h1 : '{' ∉ p1) (h2 : '}' ∉ p2)
    (hf : elements.find? (fun e => e.id == "element-1".data) = some el) :
    processQAResults (p1 ++ jsonC6 ++ p2) elements = [rC6 el] := by
  cases hfind : elements.find? (fun e => e.id == "element-1".data) with
  | none => rw [hfind] at hf; cases hf
  | some el2 =>
    rw [hfind] at hf
    injection hf with he
    subst he
    unfold processQAResults
    rw [jsonVR_C6 p1 p2 h1 h2]
    show (match processEntries elements entriesC6 [] with
          | (results, false) => results
          | (results, true) => results ++ fallbackResults (p1 ++ jsonC6 ++ p2) elements)
        = [rC6 el2]
    have hred : processEntries elements entriesC6 [] =
        (match elements.find? (fun e => e.id == "element-1".data) with
         | some el => ([rC6 el], false)
         | none => ([], false)) := rfl
    rw [hred, hfind]

/-- Witness for C6 (amended) with brace-free prose around the block. -/
theorem C6_witness :
    ('{' ∉ "Here are the results: ".data) ∧ ('}' ∉ " All done.".data) ∧
    processQAResults ("Here are the results: ".data ++ jsonC6 ++ " All done.".data) [eR1]
      = [rC6 eR1] :=
  ⟨by decide, by decide,
   C6_json_priority_amended "Here are the results: ".data " All done.".data [eR1] eR1
     (by decide) (by decide) rfl⟩

/-! ## Claim C10 -/

/-- C10: every element the conversion step emits carries no category, so
    for results over such elements the critical-category filter of
    determineOverallStatus is empty and the overall status is FAIL
    exactly when the FAIL count exceeds 20 percent of the total. -/
theorem C10_no_category_and_threshold :
    (∀ (pd : ParsedData) (e : CampaignElement),
        e ∈ convertToCampaignElements pd → e.category = none) ∧
    (∀ results : List QAResult, (∀ r ∈ results, r.element.category = none) →
      (results.filter (fun r => jsonEqStr r.status "FAIL".data &&
          (r.element.category == some "budget".data
            || r.element.category == some "dates".data))) = [] ∧
      (determineOverallStatus results = .FAIL ↔
        results.length
          < 5 * (results.filter (fun r => jsonEqStr r.status "FAIL".data)).length)) := by
  constructor
  · exact fun pd e h => (convert_mem_spec pd e h).1
  · intro results hcat
    have hcrit : (results.filter (fun r => jsonEqStr r.status "FAIL".data &&
        (r.element.category == some "budget".data
          || r.element.category == some "dates".data))) = [] := by
      rw [List.filter_eq_nil]
      intro r hr
      rw [hcat r hr]
      simp
    refine ⟨hcrit, ?_⟩
    unfold determineOverallStatus
    dsimp only
    rw [hcrit]
    have h0 : decide (([] : List QAResult).length > 0) = false := rfl
    rw [h0, Bool.false_or]
    have hlt : Dec.lt ⟨(results.length : ℤ) * 2, -1⟩
        ⟨((results.filter (fun r => jsonEqStr r.status "FAIL".data)).length : ℤ), 0⟩ = true
        ↔ results.length
            < 5 * (results.filter (fun r => jsonEqStr r.status "FAIL".data)).length := by
      unfold Dec.lt
      have hmin : min (-1 : ℤ) 0 = -1 := by decide
      rw [hmin]
      norm_num
      constructor <;> intro h <;> [omega; omega]
    constructor
    · intro h
      split at h
      · rename_i hcond
        exact hlt.mp hcond
      · exact absurd h (by simp)
    · intro h
      rw [if_pos (hlt.mpr h)]

/-- Witness for C10 at the empty result list. -/
theorem C10_witness :
    (∀ r ∈ ([] : List QAResult), r.element.category = none) ∧
    ((([] : List QAResult).filter (fun r => jsonEqStr r.status "FAIL".data &&
        (r.element.category == some "budget".data
          || r.element.category == some "dates".data))) = [] ∧
     (determineOverallStatus ([] : List QAResult) = .FAIL ↔
       ([] : List QAResult).length
         < 5 * (([] : List QAResult).filter (fun r => jsonEqStr r.status "FAIL".data)).length)) :=
  ⟨by simp, (C10_no_category_and_threshold.2 ([] : List QAResult) (by simp))⟩

end AdOps
